import Mathlib

/-!
Verification development for a task-manager application.

The program under study consists of a validated task entity (file task.py:
class Task with property setters, to_dict / from_dict serialization), an
in-memory registry mediating persistence (file task_manager.py: class
TaskManager with add_task, get_task_by_id, get_all_tasks, update_task,
delete_task, filter_tasks, sort_tasks) and a document-store handler
(file database.py) whose operations return success booleans.

The embedding below translates the Python code into Lean:
  - Python str values are Lean String values; the Python string operations
    used by the code (strip, lexicographic comparison, digit parsing) are
    modelled as executable functions over the character list String.data,
    because the kernel reduces those, unlike the built-in String primitives.
  - The persistence port (database.py) is an external collaborator: its
    responses are passed in as booleans, and the persistence calls a
    registry operation attempts are returned as an explicit trace.
  - Exceptions raised by setters become Option results; the callers
    propagate them exactly as the try / except blocks of the source do.
  - The Python dict self._tasks (insertion ordered, unique keys) is an
    association list of pairs (task_id, Task).
-/

namespace TaskApp

/-! ### Python string primitives -/

/-- Lexicographic comparison of character lists by code point, the semantics
of the Python operators < and > on str values. -/
def listLtB : List Char → List Char → Bool
  | _, [] => false
  | [], _ :: _ => true
  | a :: as, b :: bs =>
    if a.toNat < b.toNat then true
    else if b.toNat < a.toNat then false
    else listLtB as bs

/-- Python s1 < s2 on strings. -/
def strLt (a b : String) : Bool := listLtB a.data b.data

/-- Whitespace characters removed by the Python str.strip method (ASCII
fragment; the exotic Unicode whitespace of Python is not exercised by the
program). -/
def isPySpace (c : Char) : Bool :=
  c = ' ' || c = '\t' || c = '\n' || c = '\r' || c = '\x0b' || c = '\x0c'

def stripList (cs : List Char) : List Char :=
  ((cs.dropWhile isPySpace).reverse.dropWhile isPySpace).reverse

/-- Python value.strip(). -/
def pyStrip (s : String) : String := ⟨stripList s.data⟩

def isDigitB (c : Char) : Bool := 48 ≤ c.toNat && c.toNat ≤ 57

/-- Numeric value of a digit string. -/
def digitsVal (cs : List Char) : Nat :=
  cs.foldl (fun acc c => acc * 10 + (c.toNat - 48)) 0

/-- Split a character list at the "-" separators, the shape the strptime
format "%Y-%m-%d" imposes on its input. -/
def splitDash : List Char → List (List Char)
  | [] => [[]]
  | c :: cs =>
    let r := splitDash cs
    if c = '-' then [] :: r
    else
      match r with
      | [] => [[c]]
      | h :: t => (c :: h) :: t

def isLeapYear (y : Nat) : Bool :=
  y % 4 == 0 && (y % 100 != 0 || y % 400 == 0)

def daysInMonth (y m : Nat) : Nat :=
  if m == 2 then (if isLeapYear y then 29 else 28)
  else if m == 4 || m == 6 || m == 9 || m == 11 then 30
  else 31

/-- Models datetime.strptime(value, "%Y-%m-%d") succeeding: exactly four
year digits, one or two month digits in 1..12, one or two day digits valid
for the month, nothing left over, year at least 1 (datetime.MINYEAR). -/
def isValidDate (s : String) : Bool :=
  match splitDash s.data with
  | [ys, ms, ds] =>
    ys.length == 4 && ys.all isDigitB &&
    (ms.length == 1 || ms.length == 2) && ms.all isDigitB &&
    (ds.length == 1 || ds.length == 2) && ds.all isDigitB &&
    (let y := digitsVal ys
     let m := digitsVal ms
     let d := digitsVal ds
     1 ≤ y && 1 ≤ m && m ≤ 12 && 1 ≤ d && d ≤ daysInMonth y m)
  | _ => false

/-! ### The Task entity (task.py) -/

/-- The seven attributes of class Task. -/
structure Task where
  task_id : String
  title : String
  description : String
  due_date : String
  priority : String
  status : String
  created_at : String
deriving DecidableEq, Repr, Inhabited

def VALID_PRIORITIES : List String := ["Low", "Medium", "High"]

def VALID_STATUSES : List String := ["Pending", "In Progress", "Completed"]

/-- Task.__init__ (task.py lines 22-43). The constructor assigns every
argument to the corresponding field directly, with no validation. The
Python default arguments (status="Pending", created_at=None) are supplied
explicitly at each call site of this definition. The expression
created_at or now models the Python created_at or datetime.now()... ,
which replaces both None and the empty string by the current time. -/
def task_init (task_id title description due_date priority status : String)
    (created_at : Option String) (now : String) : Task :=
  { task_id := task_id, title := title, description := description,
    due_date := due_date, priority := priority, status := status,
    created_at :=
      match created_at with
      | some s => if s = "" then now else s
      | none => now }

/-- The title setter: raises (None result) when the value is empty or
whitespace-only, otherwise stores the stripped value. -/
def setTitle (t : Task) (value : String) : Option Task :=
  if value = "" || pyStrip value = "" then none
  else some { t with title := pyStrip value }

/-- The description setter: never raises, stores the stripped value. -/
def setDescription (t : Task) (value : String) : Task :=
  { t with description := pyStrip value }

/-- The due_date setter: raises unless the value parses under "%Y-%m-%d";
on success the value is stored verbatim. -/
def setDueDate (t : Task) (value : String) : Option Task :=
  if isValidDate value then some { t with due_date := value } else none

/-- The priority setter: raises unless the value is in VALID_PRIORITIES. -/
def setPriority (t : Task) (value : String) : Option Task :=
  if VALID_PRIORITIES.contains value then some { t with priority := value } else none

/-- The status setter: raises unless the value is in VALID_STATUSES. -/
def setStatus (t : Task) (value : String) : Option Task :=
  if VALID_STATUSES.contains value then some { t with status := value } else none

/-- The flat seven-field mapping used as the wire format with storage. -/
structure TaskRecord where
  task_id : String
  title : String
  description : String
  due_date : String
  priority : String
  status : String
  created_at : String
deriving DecidableEq, Repr

/-- Task.to_dict (task.py lines 105-115). -/
def Task.to_dict (t : Task) : TaskRecord :=
  ⟨t.task_id, t.title, t.description, t.due_date, t.priority, t.status, t.created_at⟩

/-- Task.from_dict (task.py lines 117-128): calls the constructor with the
stored fields, created_at passed through as a present argument. -/
def Task.from_dict (data : TaskRecord) (now : String) : Task :=
  task_init data.task_id data.title data.description data.due_date data.priority
    data.status (some data.created_at) now

/-- Validity of a Task instance in the sense of the validators the source
applies: non-blank title, parseable due date, enumerated priority and
status, and a non-empty creation timestamp (any timestamp of the form
"YYYY-MM-DD HH:MM:SS" produced at construction is non-empty). -/
def Task.validT (t : Task) : Prop :=
  ¬(t.title = "" ∨ pyStrip t.title = "") ∧ isValidDate t.due_date = true ∧
  t.priority ∈ VALID_PRIORITIES ∧ t.status ∈ VALID_STATUSES ∧ t.created_at ≠ ""

instance (t : Task) : Decidable t.validT := by
  unfold Task.validT
  infer_instance

/-! ### Claims C5 and C2 -/

/-- Claim C5: for every valid Task t, deserializing its serialization
reproduces it field-for-field: from_dict (to_dict t) equals t on all seven
fields. -/
theorem C5_roundtrip (t : Task) (now : String) (h : t.validT) :
    Task.from_dict (Task.to_dict t) now = t := by
  obtain ⟨-, -, -, -, hc⟩ := h
  cases t with
  | mk i ti d du p s c =>
    simp only [Task.from_dict, Task.to_dict, task_init]
    exact congrArg _ (if_neg hc)

def taskW : Task :=
  ⟨"t1", "Write spec", "draft it", "2024-01-05", "Low", "Pending", "2024-01-01 09:00:00"⟩

theorem C5_roundtrip_witness :
    taskW.validT ∧ Task.from_dict (Task.to_dict taskW) "2099-01-01 00:00:00" = taskW :=
  ⟨by decide, C5_roundtrip taskW "2099-01-01 00:00:00" (by decide)⟩

/-- Claim C2 counterexample: constructing a Task directly, and deserializing
a record, both succeed with a priority, status and due date far outside the
valid domains: the resulting instances hold the invalid values verbatim, so
construction does not fail and an invalid Task instance exists. -/
theorem C2_ctor_counterexample :
    (task_init "t1" "x" "" "not-a-date" "Urgent" "Nope" (some "ts") "now").priority = "Urgent" ∧
    (task_init "t1" "x" "" "not-a-date" "Urgent" "Nope" (some "ts") "now").status = "Nope" ∧
    isValidDate (task_init "t1" "x" "" "not-a-date" "Urgent" "Nope" (some "ts") "now").due_date
      = false ∧
    "Urgent" ∉ VALID_PRIORITIES ∧ "Nope" ∉ VALID_STATUSES ∧
    (Task.from_dict ⟨"t2", "y", "", "9999-99-99", "Urgent", "Nope", "ts"⟩ "now").priority
      = "Urgent" ∧
    isValidDate (Task.from_dict ⟨"t2", "y", "", "9999-99-99", "Urgent", "Nope", "ts"⟩
      "now").due_date = false := by
  decide

/-- Claim C2 amended: the Task constructor and from_dict perform no
validation at all. Every field argument is stored verbatim (the creation
timestamp falling back to the current time when absent or empty), for
invalid values just as for valid ones; validation happens only in the
property setters and in the explicit checks of TaskManager.add_task. -/
theorem C2_ctor_no_validation :
    (∀ i ti d du p s c now, (task_init i ti d du p s c now).task_id = i ∧
      (task_init i ti d du p s c now).title = ti ∧
      (task_init i ti d du p s c now).description = d ∧
      (task_init i ti d du p s c now).due_date = du ∧
      (task_init i ti d du p s c now).priority = p ∧
      (task_init i ti d du p s c now).status = s) ∧
    (∀ r now, (Task.from_dict r now).due_date = r.due_date ∧
      (Task.from_dict r now).priority = r.priority ∧
      (Task.from_dict r now).status = r.status) := by
  constructor
  · intro i ti d du p s c now
    simp [task_init]
  · intro r now
    simp [Task.from_dict, task_init]

/-! ### The task registry (task_manager.py) -/

/-- The in-memory cache self._tasks: a Python dict from task_id to Task,
modelled as an insertion-ordered association list with unique keys. -/
structure TaskManager where
  tasks : List (String × Task)
deriving DecidableEq, Repr

/-- TaskManager.get_task_by_id (task_manager.py lines 103-113):
self._tasks.get(task_id). -/
def TaskManager.get_task_by_id (m : TaskManager) (task_id : String) : Option Task :=
  (m.tasks.find? (fun p => p.1 == task_id)).map (fun p => p.2)

/-- TaskManager.get_all_tasks (lines 94-101): list(self._tasks.values()). -/
def TaskManager.get_all_tasks (m : TaskManager) : List Task :=
  m.tasks.map (fun p => p.2)

/-- The key view of the dict, for membership tests task_id in self._tasks. -/
def TaskManager.keysOf (m : TaskManager) : List String :=
  m.tasks.map (fun p => p.1)

/-- Python truthiness test not x on an optional string: true for None and
for the empty string. -/
def pyFalsy : Option String → Bool
  | none => true
  | some s => s == ""

/-- TaskManager.filter_tasks (lines 212-238): pass-through when either
argument is falsy, otherwise a linear scan keeping the tasks whose field
named by filter_by equals filter_value, mirroring the elif chain of the
source loop. -/
def TaskManager.filter_tasks (m : TaskManager) (filter_by filter_value : Option String) :
    List Task :=
  let tasks := m.get_all_tasks
  if pyFalsy filter_by || pyFalsy filter_value then tasks
  else
    tasks.filter (fun task =>
      (filter_by == some "priority" && some task.priority == filter_value) ||
      (filter_by == some "status" && some task.status == filter_value) ||
      (filter_by == some "due_date" && some task.due_date == filter_value))

/-- The keyword arguments of TaskManager.update_task: one optional value
per updatable field. -/
structure UpdateData where
  title : Option String
  description : Option String
  due_date : Option String
  priority : Option String
  status : Option String
deriving Repr

def UpdateData.hasAny (u : UpdateData) : Bool :=
  u.title.isSome || u.description.isSome || u.due_date.isSome ||
  u.priority.isSome || u.status.isSome

/-- One field step of the update_task body: when no earlier setter has
raised and the field is supplied, run its setter; a raising setter leaves
the task as mutated so far and records failure (the exception propagates to
the except clause of update_task). -/
def stepField (st : Task × Bool) (v : Option String) (f : Task → String → Option Task) :
    Task × Bool :=
  match v with
  | none => st
  | some s =>
    if st.2 then
      match f st.1 s with
      | some t' => (t', true)
      | none => (st.1, false)
    else st

/-- The field-assignment sequence of update_task (lines 135-153), in source
order: title, description, due_date, priority, status. The returned task
reflects every setter that ran before the first failure, because the Python
setters mutate the live Task object in place. -/
def applyUpdates (t : Task) (u : UpdateData) : Task × Bool :=
  let s1 := stepField (t, true) u.title setTitle
  let s2 := stepField s1 u.description (fun t v => some (setDescription t v))
  let s3 := stepField s2 u.due_date setDueDate
  let s4 := stepField s3 u.priority setPriority
  stepField s4 u.status setStatus

/-- Replacement of the stored object under a key: because the Python dict
holds a reference to the mutated Task, every in-place setter call is
visible at the entry of that key. -/
def TaskManager.setTask (m : TaskManager) (task_id : String) (t' : Task) : TaskManager :=
  ⟨m.tasks.map (fun p => if p.1 == task_id then (p.1, t') else p)⟩

/-- TaskManager.update_task (lines 115-171). dbOk is the response of the
persistence port update call. The mutated task is stored back whether or
not the overall call succeeds, mirroring the in-place mutation of the
aliased Task object in the source. -/
def TaskManager.update_task (m : TaskManager) (task_id : String) (u : UpdateData)
    (dbOk : Bool) : Bool × TaskManager :=
  match m.get_task_by_id task_id with
  | none => (false, m)
  | some t =>
    let r := applyUpdates t u
    let m' := m.setTask task_id r.1
    if r.2 then
      if u.hasAny then (if dbOk then (true, m') else (false, m'))
      else (false, m')
    else (false, m')

/-- Removal of a key from the dict (del self._tasks[task_id]). -/
def TaskManager.eraseTask (m : TaskManager) (task_id : String) : TaskManager :=
  ⟨m.tasks.filter (fun p => !(p.1 == task_id))⟩

/-- TaskManager.delete_task (lines 185-210). dbOk is the response of the
persistence port delete call; the entry is removed only when it is true. -/
def TaskManager.delete_task (m : TaskManager) (task_id : String) (dbOk : Bool) :
    Bool × TaskManager :=
  if m.keysOf.contains task_id then
    (if dbOk then (true, m.eraseTask task_id) else (false, m))
  else (false, m)

/-- A call the registry makes on the persistence port. -/
inductive PortCall
  | insertRec (record : TaskRecord)
deriving DecidableEq, Repr

/-- The id-generation loop of add_task (lines 70-73): candidates are drawn
from the stream cands until one is not a key of the dict. The source loops
unboundedly; the fuel argument bounds the recursion in the embedding and
the theorems hypothesise that a fresh candidate is found within it. -/
def findFreshId (cands : Nat → String) (keys : List String) : Nat → Nat → Option String
  | _, 0 => none
  | i, fuel + 1 =>
    if keys.contains (cands i) then findFreshId cands keys (i + 1) fuel
    else some (cands i)

/-- TaskManager.add_task (lines 42-92). The result triple is (returned
value, registry state after the call, trace of persistence calls
attempted). insertOk is the response of the persistence port insert call;
now is the clock reading used for the creation timestamp. -/
def TaskManager.add_task (m : TaskManager) (title description due_date priority : String)
    (cands : Nat → String) (fuel : Nat) (insertOk : Bool) (now : String) :
    Option Task × TaskManager × List PortCall :=
  if title = "" || pyStrip title = "" then (none, m, [])
  else if !(VALID_PRIORITIES.contains priority) then (none, m, [])
  else if !(isValidDate due_date) then (none, m, [])
  else
    match findFreshId cands m.keysOf 0 fuel with
    | none => (none, m, [])
    | some task_id =>
      let task := task_init task_id title description due_date priority "Pending" none now
      if insertOk then
        (some task, ⟨m.tasks ++ [(task_id, task)]⟩, [PortCall.insertRec task.to_dict])
      else (none, m, [PortCall.insertRec task.to_dict])

/-! ### Claims C8 and C10 (filter_tasks) -/

/-- Claim C8: filter_tasks with a field among priority, status, due_date
and a non-empty value returns exactly the subset of get_all_tasks whose
named field equals the value, in their original relative order (the
List.filter form); with an absent field or value (None or empty), it
returns all tasks unfiltered. -/
theorem C8_filter_exact :
    (∀ (m : TaskManager) (v : String), v ≠ "" →
      m.filter_tasks (some "priority") (some v)
        = m.get_all_tasks.filter (fun t => t.priority == v)) ∧
    (∀ (m : TaskManager) (v : String), v ≠ "" →
      m.filter_tasks (some "status") (some v)
        = m.get_all_tasks.filter (fun t => t.status == v)) ∧
    (∀ (m : TaskManager) (v : String), v ≠ "" →
      m.filter_tasks (some "due_date") (some v)
        = m.get_all_tasks.filter (fun t => t.due_date == v)) ∧
    (∀ (m : TaskManager) (fv : Option String), m.filter_tasks none fv = m.get_all_tasks) ∧
    (∀ (m : TaskManager) (fv : Option String),
      m.filter_tasks (some "") fv = m.get_all_tasks) ∧
    (∀ (m : TaskManager) (fb : Option String), m.filter_tasks fb none = m.get_all_tasks) ∧
    (∀ (m : TaskManager) (fb : Option String),
      m.filter_tasks fb (some "") = m.get_all_tasks) := by
  refine ⟨?_, ?_, ?_, ?_, ?_, ?_, ?_⟩
  · intro m v hv
    simp [TaskManager.filter_tasks, pyFalsy, hv]
  · intro m v hv
    simp [TaskManager.filter_tasks, pyFalsy, hv]
  · intro m v hv
    simp [TaskManager.filter_tasks, pyFalsy, hv]
  · intro m fv
    simp [TaskManager.filter_tasks, pyFalsy]
  · intro m fv
    simp [TaskManager.filter_tasks, pyFalsy]
  · intro m fb
    cases fb <;> simp [TaskManager.filter_tasks, pyFalsy]
  · intro m fb
    cases fb <;> simp [TaskManager.filter_tasks, pyFalsy]

def taskHigh : Task :=
  ⟨"h1", "High one", "", "2024-01-10", "High", "Pending", "2024-01-01 09:00:00"⟩

def taskLow : Task :=
  ⟨"l1", "Low one", "", "2024-01-05", "Low", "Pending", "2024-01-01 09:00:01"⟩

def mgrW : TaskManager := ⟨[("h1", taskHigh), ("l1", taskLow)]⟩

theorem C8_filter_exact_witness :
    mgrW.filter_tasks (some "priority") (some "High")
      = mgrW.get_all_tasks.filter (fun t => t.priority == "High") ∧
    mgrW.filter_tasks (some "priority") (some "High") = [taskHigh] :=
  ⟨C8_filter_exact.1 mgrW "High" (by decide), by decide⟩

/-- Claim C10: filter_tasks with a non-empty field name outside priority,
status, due_date and a non-empty value returns the empty list: no branch of
the scan matches, so nothing is kept. -/
theorem C10_unknown_field_empty (m : TaskManager) (fb v : String)
    (hfb : fb ≠ "") (h1 : fb ≠ "priority") (h2 : fb ≠ "status") (h3 : fb ≠ "due_date")
    (hv : v ≠ "") :
    m.filter_tasks (some fb) (some v) = [] := by
  simp [TaskManager.filter_tasks, pyFalsy, hfb, hv, h1, h2, h3]

theorem C10_unknown_field_empty_witness :
    mgrW.filter_tasks (some "title") (some "High one") = [] :=
  C10_unknown_field_empty mgrW "title" "High one" (by decide) (by decide) (by decide)
    (by decide) (by decide)

/-! ### Claim C3 (add_task rejects invalid input with no effects) -/

/-- Claim C3: add_task with a blank title, an unlisted priority, or an
unparseable due date returns None, attempts no persistence call, and
leaves the registry unchanged. -/
theorem C3_add_invalid_no_effect (m : TaskManager)
    (title descr due prio : String) (cands : Nat → String) (fuel : Nat)
    (insertOk : Bool) (now : String)
    (hbad : title = "" ∨ pyStrip title = "" ∨ prio ∉ VALID_PRIORITIES ∨
      isValidDate due = false) :
    m.add_task title descr due prio cands fuel insertOk now = (none, m, []) := by
  rcases hbad with h | h | h | h
  · simp [TaskManager.add_task, h]
  · simp [TaskManager.add_task, h]
  · by_cases ht : title = "" || pyStrip title = ""
    · simp [TaskManager.add_task, ht]
    · simp [TaskManager.add_task, ht, h]
  · by_cases ht : title = "" || pyStrip title = ""
    · simp [TaskManager.add_task, ht]
    · by_cases hp : prio ∈ VALID_PRIORITIES
      · simp [TaskManager.add_task, ht, hp, h]
      · simp [TaskManager.add_task, ht, hp]

theorem C3_add_invalid_no_effect_witness :
    mgrW.add_task "   " "d" "2024-01-05" "Low" (fun _ => "x1") 5 true "now"
      = (none, mgrW, []) ∧
    mgrW.add_task "t" "d" "2024-01-05" "Urgent" (fun _ => "x1") 5 true "now"
      = (none, mgrW, []) ∧
    mgrW.add_task "t" "d" "2024-02-30" "Low" (fun _ => "x1") 5 true "now"
      = (none, mgrW, []) :=
  ⟨C3_add_invalid_no_effect mgrW "   " "d" "2024-01-05" "Low" (fun _ => "x1") 5 true "now"
      (Or.inr (Or.inl (by decide))),
   C3_add_invalid_no_effect mgrW "t" "d" "2024-01-05" "Urgent" (fun _ => "x1") 5 true "now"
      (Or.inr (Or.inr (Or.inl (by decide)))),
   C3_add_invalid_no_effect mgrW "t" "d" "2024-02-30" "Low" (fun _ => "x1") 5 true "now"
      (Or.inr (Or.inr (Or.inr (by decide))))⟩

/-! ### Claim C4 (add_task on valid input) -/

theorem findFreshId_not_mem (cands : Nat → String) (keys : List String) :
    ∀ (fuel i : Nat) (id : String), findFreshId cands keys i fuel = some id → id ∉ keys := by
  intro fuel
  induction fuel with
  | zero => intro i id h; simp [findFreshId] at h
  | succ n ih =>
    intro i id h
    by_cases hc : keys.contains (cands i)
    · rw [findFreshId, if_pos hc] at h
      exact ih (i + 1) id h
    · rw [findFreshId, if_neg hc] at h
      cases h
      simpa using hc

theorem lookup_append_fresh (l : List (String × Task)) (id : String) (t : Task)
    (h : id ∉ l.map (fun p => p.1)) :
    (TaskManager.mk (l ++ [(id, t)])).get_task_by_id id = some t := by
  unfold TaskManager.get_task_by_id
  induction l with
  | nil => simp
  | cons p rest ih =>
    simp only [List.map_cons, List.mem_cons] at h
    push_neg at h
    simp only [List.cons_append, List.find?_cons]
    have hne : (p.1 == id) = false := by simpa using Ne.symm h.1
    rw [hne]
    exact ih h.2

/-- Claim C4: for valid inputs, when a fresh id is found and the
persistence insert succeeds, add_task returns a Task echoing the inputs
with status Pending and a fresh id not previously in the registry, appends
exactly that entry, records one insert call, get_task_by_id on the new id
returns that Task, and key uniqueness is preserved; when the insert fails,
add_task returns None and the registry is unchanged. -/
theorem C4_add_valid (m : TaskManager) (title descr due prio : String)
    (cands : Nat → String) (fuel : Nat) (now : String) (id : String)
    (htitle : ¬(title = "" ∨ pyStrip title = "")) (hprio : prio ∈ VALID_PRIORITIES)
    (hdate : isValidDate due = true) (hid : findFreshId cands m.keysOf 0 fuel = some id) :
    (∃ task,
      m.add_task title descr due prio cands fuel true now
        = (some task, ⟨m.tasks ++ [(id, task)]⟩, [PortCall.insertRec task.to_dict]) ∧
      task.title = title ∧ task.description = descr ∧ task.due_date = due ∧
      task.priority = prio ∧ task.status = "Pending" ∧ task.task_id = id ∧
      id ∉ m.keysOf ∧
      (TaskManager.mk (m.tasks ++ [(id, task)])).get_task_by_id id = some task ∧
      (m.keysOf.Nodup → (TaskManager.mk (m.tasks ++ [(id, task)])).keysOf.Nodup)) ∧
    m.add_task title descr due prio cands fuel false now
      = (none, m, [PortCall.insertRec
          (task_init id title descr due prio "Pending" none now).to_dict]) := by
  push_neg at htitle
  have ht : (title = "" || pyStrip title = "") = false := by
    simp [htitle.1, htitle.2]
  have hfresh : id ∉ m.keysOf := findFreshId_not_mem cands m.keysOf fuel 0 id hid
  have hrun : ∀ insertOk : Bool,
      m.add_task title descr due prio cands fuel insertOk now
        = (if insertOk
            then (some (task_init id title descr due prio "Pending" none now),
              ⟨m.tasks ++ [(id, task_init id title descr due prio "Pending" none now)]⟩,
              [PortCall.insertRec (task_init id title descr due prio "Pending" none now).to_dict])
            else (none, m,
              [PortCall.insertRec
                (task_init id title descr due prio "Pending" none now).to_dict])) := by
    intro insertOk
    unfold TaskManager.add_task
    rw [if_neg (by simp [ht]), if_neg (by simp [hprio]), if_neg (by simp [hdate]), hid]
  refine ⟨⟨task_init id title descr due prio "Pending" none now, ?_, ?_, ?_, ?_, ?_, ?_, ?_,
    hfresh, ?_, ?_⟩, ?_⟩
  · simpa using hrun true
  · rfl
  · rfl
  · rfl
  · rfl
  · rfl
  · rfl
  · exact lookup_append_fresh m.tasks id _ hfresh
  · intro hnd
    have hkeys : (TaskManager.mk
        (m.tasks ++ [(id, task_init id title descr due prio "Pending" none now)])).keysOf
        = m.keysOf ++ [id] := by
      simp [TaskManager.keysOf]
    rw [hkeys]
    refine List.Nodup.append hnd (List.nodup_singleton id) ?_
    intro a ha hb
    rw [List.mem_singleton] at hb
    exact hfresh (hb ▸ ha)
  · simpa using hrun false

def candsW : Nat → String := fun n => if n = 0 then "h1" else "n42"

theorem C4_add_valid_witness :
    ¬("New task" = "" ∨ pyStrip "New task" = "") ∧ ("Low" : String) ∈ VALID_PRIORITIES ∧
    isValidDate "2024-02-29" = true ∧ findFreshId candsW mgrW.keysOf 0 3 = some "n42" ∧
    (∃ task,
      mgrW.add_task "New task" "d" "2024-02-29" "Low" candsW 3 true "2024-01-01 10:00:00"
        = (some task, ⟨mgrW.tasks ++ [("n42", task)]⟩, [PortCall.insertRec task.to_dict]) ∧
      task.title = "New task" ∧ task.description = "d" ∧ task.due_date = "2024-02-29" ∧
      task.priority = "Low" ∧ task.status = "Pending" ∧ task.task_id = "n42" ∧
      "n42" ∉ mgrW.keysOf ∧
      (TaskManager.mk (mgrW.tasks ++ [("n42", task)])).get_task_by_id "n42" = some task ∧
      (mgrW.keysOf.Nodup → (TaskManager.mk (mgrW.tasks ++ [("n42", task)])).keysOf.Nodup)) ∧
    (mgrW.add_task "New task" "d" "2024-02-29" "Low" candsW 3 false "2024-01-01 10:00:00").1
      = none :=
  have h := C4_add_valid mgrW "New task" "d" "2024-02-29" "Low" candsW 3
    "2024-01-01 10:00:00" "n42" (by decide) (by decide) (by decide) (by decide)
  ⟨by decide, by decide, by decide, by decide, h.1, by rw [h.2]⟩

/-! ### Claim C6 (delete_task) -/

theorem erase_key_not_mem (m : TaskManager) (id : String) :
    id ∉ (m.eraseTask id).keysOf := by
  simp only [TaskManager.eraseTask, TaskManager.keysOf]
  intro hmem
  obtain ⟨p, hp, hpe⟩ := List.mem_map.mp hmem
  have := List.of_mem_filter hp
  simp [hpe] at this

theorem erase_length_of_mem (l : List (String × Task)) (id : String)
    (hmem : id ∈ l.map (fun p => p.1)) (hnd : (l.map (fun p => p.1)).Nodup) :
    (l.filter (fun p => !(p.1 == id))).length + 1 = l.length := by
  induction l with
  | nil => simp at hmem
  | cons p rest ih =>
    simp only [List.map_cons, List.nodup_cons] at hnd
    simp only [List.map_cons, List.mem_cons] at hmem
    rcases hmem with h | h
    · have hbe : (p.1 == id) = true := by simp [h]
      rw [List.filter_cons, if_neg (by simp [hbe])]
      have hrest : rest.filter (fun q => !(q.1 == id)) = rest := by
        apply List.filter_eq_self.mpr
        intro q hq
        have hqm : q.1 ∈ rest.map (fun p => p.1) := List.mem_map_of_mem _ hq
        have hne : q.1 ≠ id := by
          intro he
          apply hnd.1
          rw [← h, ← he]
          exact hqm
        simp [hne]
      rw [hrest]
      simp
    · have hpe : p.1 ≠ id := by
        intro he
        exact hnd.1 (by rw [he]; exact h)
      rw [List.filter_cons, if_pos (by simp [hpe])]
      have hih := ih h hnd.2
      simp only [List.length_cons]
      omega

/-- Claim C6: for an id present in the registry, delete_task with a
successful store delete removes exactly that entry: the lookup becomes
absent, the key leaves the key set, the remaining entries are the original
ones with the other keys in order, and (given the unique-key dict
invariant) the count drops by exactly one; with the store reporting no
matching record it returns failure and changes nothing; for an id not
present it returns failure and changes nothing. -/
theorem C6_delete (m : TaskManager) (id : String) :
    (id ∈ m.keysOf → m.keysOf.Nodup →
      m.delete_task id true = (true, m.eraseTask id) ∧
      (m.eraseTask id).get_task_by_id id = none ∧
      id ∉ (m.eraseTask id).keysOf ∧
      (m.eraseTask id).tasks = m.tasks.filter (fun p => !(p.1 == id)) ∧
      (m.eraseTask id).tasks.length + 1 = m.tasks.length) ∧
    (id ∈ m.keysOf → m.delete_task id false = (false, m)) ∧
    (id ∉ m.keysOf → ∀ dbOk, m.delete_task id dbOk = (false, m)) := by
  refine ⟨fun hmem hnd => ⟨?_, ?_, erase_key_not_mem m id, rfl, ?_⟩, fun hmem => ?_, ?_⟩
  · unfold TaskManager.delete_task
    rw [if_pos (by simpa using hmem)]
    rfl
  · unfold TaskManager.eraseTask TaskManager.get_task_by_id
    rw [Option.map_eq_none']
    apply List.find?_eq_none.mpr
    intro p hp
    have := List.of_mem_filter hp
    simpa using this
  · exact erase_length_of_mem m.tasks id hmem hnd
  · unfold TaskManager.delete_task
    rw [if_pos (by simpa using hmem)]
    rfl
  · intro hmem dbOk
    unfold TaskManager.delete_task
    rw [if_neg (by simpa using hmem)]

theorem C6_delete_witness :
    ("h1" : String) ∈ mgrW.keysOf ∧ mgrW.keysOf.Nodup ∧
    mgrW.delete_task "h1" true = (true, mgrW.eraseTask "h1") ∧
    (mgrW.eraseTask "h1").get_task_by_id "h1" = none ∧
    (mgrW.eraseTask "h1").tasks.length + 1 = mgrW.tasks.length ∧
    mgrW.delete_task "h1" false = (false, mgrW) ∧
    mgrW.delete_task "zz" true = (false, mgrW) :=
  have h := C6_delete mgrW "h1"
  have h1 := h.1 (by decide) (by decide)
  ⟨by decide, by decide, h1.1, h1.2.1, h1.2.2.2.2, h.2.1 (by decide),
    (C6_delete mgrW "zz").2.2 (by decide) true⟩

/-! ### Claim C1 (update_task partial-mutation behaviour) -/

def taskC1 : Task :=
  ⟨"t1", "Old title", "old", "2024-01-05", "Low", "Pending", "2024-01-01 09:00:00"⟩

def mgrC1 : TaskManager := ⟨[("t1", taskC1)]⟩

def updC1 : UpdateData := ⟨some "New title", none, none, some "Urgent", none⟩

/-- Claim C1 failing input, evaluated on the code: updating task t1 with a
valid new title together with the invalid priority Urgent returns failure,
yet the stored task now carries the new title: the fields assigned before
the failing setter stay mutated, so the update is not all-or-nothing. -/
theorem C1_partial_mutation_bug :
    "Urgent" ∉ VALID_PRIORITIES ∧
    (mgrC1.update_task "t1" updC1 true).1 = false ∧
    ((mgrC1.update_task "t1" updC1 true).2.get_task_by_id "t1").map Task.title
      = some "New title" ∧
    taskC1.title = "Old title" ∧
    ((mgrC1.update_task "t1" updC1 true).2.get_task_by_id "t1").map Task.priority
      = some "Low" := by
  decide

/-! ### sort_tasks (task_manager.py lines 240-293)

The source is an insertion sort over a copy of the input list: element i is
inserted into the sorted prefix by an inner while loop that walks from
position i-1 leftwards, shifting one position to the right every element
that satisfies the comparison (strictly greater than the key ascending,
strictly smaller descending), and stops at the first element that does not.
The net effect of one outer iteration on the prefix is therefore: the key
is placed directly before the longest suffix of the prefix all of whose
elements satisfy the comparison, which is what insertShifted computes. -/

/-- The dict priority_order = Low 1, Medium 2, High 3 read with .get(p, 0):
unrecognized priorities rank 0. -/
def priority_order (p : String) : Nat :=
  if p = "Low" then 1 else if p = "Medium" then 2 else if p = "High" then 3 else 0

/-- A comparison key of the sort: a numeric rank for priority, a date or
timestamp string otherwise. -/
inductive SortKey
  | num (n : Nat)
  | str (s : String)
deriving DecidableEq, Repr

/-- The key extraction of lines 268-273 and 277-282: priority rank for
sort_by = priority, the created_at string for created_at, the due_date
string for every other value of sort_by (the else branch of the source). -/
def sortKey (sort_by : String) (t : Task) : SortKey :=
  if sort_by = "priority" then SortKey.num (priority_order t.priority)
  else if sort_by = "created_at" then SortKey.str t.created_at
  else SortKey.str t.due_date

/-- Python compare_value > key_value on the comparison keys (both keys of a
given call have the same shape; mixed shapes never arise and compare
false). -/
def keyGt : SortKey → SortKey → Bool
  | SortKey.num a, SortKey.num b => decide (b < a)
  | SortKey.str a, SortKey.str b => strLt b a
  | _, _ => false

/-- The shift condition of lines 284-285: (not reverse and compare_value >
key_value) or (reverse and compare_value < key_value), where a is the
element of the sorted prefix under inspection and key the element being
inserted. -/
def shouldShift (sort_by : String) (rev : Bool) (a key : Task) : Bool :=
  (!rev && keyGt (sortKey sort_by a) (sortKey sort_by key)) ||
  (rev && keyGt (sortKey sort_by key) (sortKey sort_by a))

/-- One outer iteration of the insertion sort: the key goes directly before
the longest suffix of the prefix whose elements all satisfy the shift
condition (the elements the inner while loop moves right). -/
def insertShifted (shift : Task → Bool) (key : Task) (pre : List Task) : List Task :=
  (pre.reverse.dropWhile shift).reverse ++ key :: (pre.reverse.takeWhile shift).reverse

/-- TaskManager.sort_tasks as a function of the list it copies. -/
def sort_tasks (sort_by : String) (rev : Bool) (tasks : List Task) : List Task :=
  if tasks.isEmpty then []
  else tasks.foldl (fun acc key => insertShifted (shouldShift sort_by rev · key) key acc) []

/-! #### Order facts for the comparison primitives -/

theorem listLtB_irrefl : ∀ cs, listLtB cs cs = false
  | [] => rfl
  | c :: cs => by simp [listLtB, listLtB_irrefl cs]

theorem listLtB_asymm : ∀ as bs, listLtB as bs = true → listLtB bs as = false := by
  intro as
  induction as with
  | nil =>
    intro bs h
    cases bs with
    | nil => simp [listLtB] at h
    | cons b bs => simp [listLtB]
  | cons a as ih =>
    intro bs h
    cases bs with
    | nil => simp [listLtB] at h
    | cons b bs =>
      simp only [listLtB] at h ⊢
      rcases Nat.lt_trichotomy a.toNat b.toNat with hlt | heq | hgt
      · simp [hlt, Nat.lt_asymm hlt]
      · simp only [heq, Nat.lt_irrefl, if_false] at h ⊢
        exact ih bs h
      · simp [hgt, Nat.lt_asymm hgt] at h

theorem listLtB_cotrans : ∀ as bs cs, listLtB as cs = true →
    listLtB as bs = true ∨ listLtB bs cs = true := by
  intro as
  induction as with
  | nil =>
    intro bs cs h
    cases cs with
    | nil => simp [listLtB] at h
    | cons c cs =>
      cases bs with
      | nil => exact Or.inr (by simp [listLtB])
      | cons b bs => exact Or.inl (by simp [listLtB])
  | cons a as ih =>
    intro bs cs h
    cases cs with
    | nil => simp [listLtB] at h
    | cons c cs =>
      cases bs with
      | nil => exact Or.inr (by simp [listLtB])
      | cons b bs =>
        simp only [listLtB] at h ⊢
        rcases Nat.lt_trichotomy a.toNat c.toNat with hac | hac | hac
        · rcases Nat.lt_trichotomy a.toNat b.toNat with hab | hab | hab
          · exact Or.inl (by simp [hab])
          · exact Or.inr (by simp [hab ▸ hac])
          · exact Or.inr (by simp [Nat.lt_trans hab hac])
        · simp only [hac, Nat.lt_irrefl, if_false] at h
          rcases Nat.lt_trichotomy a.toNat b.toNat with hab | hab | hab
          · exact Or.inl (by simp [hab])
          · rcases ih bs cs h with h2 | h2
            · exact Or.inl (by simp [← hab, Nat.lt_irrefl, h2])
            · exact Or.inr (by simp [hab ▸ hac, Nat.lt_irrefl, h2])
          · exact Or.inr (by simp [hac ▸ hab])
        · simp [hac, Nat.lt_asymm hac] at h

theorem strLt_irrefl (s : String) : strLt s s = false := listLtB_irrefl s.data

theorem strLt_asymm {a b : String} (h : strLt a b = true) : strLt b a = false :=
  listLtB_asymm _ _ h

theorem strLt_cotrans (a b c : String) (h : strLt a c = true) :
    strLt a b = true ∨ strLt b c = true :=
  listLtB_cotrans _ _ _ h

theorem keyGt_irrefl : ∀ x, keyGt x x = false
  | SortKey.num n => by simp [keyGt]
  | SortKey.str s => strLt_irrefl s

theorem keyGt_asymm : ∀ {x y}, keyGt x y = true → keyGt y x = false
  | SortKey.num a, SortKey.num b, h => by
    simp only [keyGt, decide_eq_true_eq] at h
    simp [keyGt, Nat.lt_asymm h]
  | SortKey.str a, SortKey.str b, h => strLt_asymm h
  | SortKey.num _, SortKey.str _, h => by simp [keyGt] at h
  | SortKey.str _, SortKey.num _, h => by simp [keyGt] at h

/-- Cotransitivity of the key comparison for keys produced by a common
sortKey call (the only way the source compares them). -/
theorem sortKey_cotrans (sb : String) (t u v : Task)
    (h : keyGt (sortKey sb t) (sortKey sb v) = true) :
    keyGt (sortKey sb t) (sortKey sb u) = true ∨
    keyGt (sortKey sb u) (sortKey sb v) = true := by
  unfold sortKey at h ⊢
  by_cases h1 : sb = "priority"
  · simp only [h1, if_pos] at h ⊢
    simp only [keyGt, decide_eq_true_eq] at h ⊢
    omega
  · by_cases h2 : sb = "created_at"
    · simp only [h1, h2, if_neg, if_pos, reduceIte] at h ⊢
      exact (strLt_cotrans _ u.created_at _ h).elim
        (fun hx => Or.inr hx) (fun hx => Or.inl hx)
    · simp only [h1, h2, reduceIte] at h ⊢
      exact (strLt_cotrans _ u.due_date _ h).elim
        (fun hx => Or.inr hx) (fun hx => Or.inl hx)

theorem shouldShift_asymm (sb : String) (rev : Bool) (a b : Task)
    (h : shouldShift sb rev a b = true) : shouldShift sb rev b a = false := by
  cases rev <;> simp only [shouldShift, Bool.not_false, Bool.not_true, Bool.true_and,
    Bool.false_and, Bool.or_false, Bool.false_or] at h ⊢ <;>
  exact keyGt_asymm h

theorem shouldShift_of_eq_key (sb : String) (rev : Bool) (a b : Task)
    (h : sortKey sb a = sortKey sb b) : shouldShift sb rev a b = false := by
  cases rev <;> simp only [shouldShift, Bool.not_false, Bool.not_true, Bool.true_and,
    Bool.false_and, Bool.or_false, Bool.false_or] <;> rw [h] <;> exact keyGt_irrefl _

/-- The propagation step of the sorted-prefix argument: if a would shift
past the key but does not shift past d, then d shifts past the key. -/
theorem shouldShift_propagate (sb : String) (rev : Bool) (a d key : Task)
    (h1 : shouldShift sb rev a key = true) (h2 : shouldShift sb rev a d = false) :
    shouldShift sb rev d key = true := by
  cases rev <;> simp only [shouldShift, Bool.not_false, Bool.not_true, Bool.true_and,
    Bool.false_and, Bool.or_false, Bool.false_or] at h1 h2 ⊢
  · rcases sortKey_cotrans sb a d key h1 with hx | hx
    · rw [hx] at h2; cases h2
    · exact hx
  · rcases sortKey_cotrans sb key d a h1 with hx | hx
    · exact hx
    · rw [hx] at h2; cases h2

/-! #### Structure of one insertion step -/

theorem rev_drop_take {α : Type} (p : α → Bool) (l : List α) :
    (l.reverse.dropWhile p).reverse ++ (l.reverse.takeWhile p).reverse = l := by
  rw [← List.reverse_append, List.takeWhile_append_dropWhile, List.reverse_reverse]

theorem dropWhile_head_false {α : Type} {p : α → Bool} :
    ∀ {l : List α} {d : α} {ds : List α}, l.dropWhile p = d :: ds → p d = false := by
  intro l
  induction l with
  | nil => intro d ds h; cases h
  | cons x xs ih =>
    intro d ds h
    rw [List.dropWhile_cons] at h
    by_cases hx : p x = true
    · rw [if_pos hx] at h
      exact ih h
    · rw [if_neg hx] at h
      cases h
      exact Bool.eq_false_iff.mpr hx

theorem perm_insertShifted {α : Type} (shift : α → Bool) (key : α) (pre : List α) :
    ((pre.reverse.dropWhile shift).reverse ++
      key :: (pre.reverse.takeWhile shift).reverse).Perm (key :: pre) := by
  have h : ((pre.reverse.dropWhile shift).reverse ++
      key :: (pre.reverse.takeWhile shift).reverse).Perm
      (key :: ((pre.reverse.dropWhile shift).reverse ++
        (pre.reverse.takeWhile shift).reverse)) := List.perm_middle
  rwa [rev_drop_take] at h

theorem filter_insertShifted {α : Type} (q shift : α → Bool) (key : α) (pre : List α)
    (hq : q key = true → ∀ b, shift b = true → q b = false) :
    ((pre.reverse.dropWhile shift).reverse ++
      key :: (pre.reverse.takeWhile shift).reverse).filter q
      = (pre ++ [key]).filter q := by
  have hpre := rev_drop_take shift pre
  conv_rhs => rw [← hpre]
  rw [List.filter_append, List.filter_append, List.filter_append, List.append_assoc]
  congr 1
  by_cases hk : q key = true
  · have hB : (pre.reverse.takeWhile shift).reverse.filter q = [] := by
      apply List.filter_eq_nil_iff.mpr
      intro b hb
      rw [List.mem_reverse] at hb
      simp [hq hk b (List.mem_takeWhile_imp hb)]
    rw [List.filter_cons_of_pos hk, hB]
    simp [hk]
  · have hk2 : q key = false := Bool.eq_false_iff.mpr hk
    rw [List.filter_cons_of_neg (by simp [hk2])]
    simp [hk2]

theorem pairwise_insertShifted {α : Type} (R : α → α → Prop) (shift : α → Bool) (key : α)
    (pre : List α)
    (hkeyB : ∀ b, shift b = true → R key b)
    (hprop : ∀ a d, shift a = true → R a d → shift d = true)
    (hAkey : ∀ a, shift a = false → R a key)
    (h : pre.Pairwise R) :
    ((pre.reverse.dropWhile shift).reverse ++
      key :: (pre.reverse.takeWhile shift).reverse).Pairwise R := by
  rw [← rev_drop_take shift pre, List.pairwise_append] at h
  obtain ⟨hA, hB, hAB⟩ := h
  have hAnot : ∀ a ∈ (pre.reverse.dropWhile shift).reverse, shift a = false := by
    intro a ha
    cases hD : pre.reverse.dropWhile shift with
    | nil => rw [hD] at ha; simp at ha
    | cons d ds =>
      rw [hD] at ha hA
      have hd : shift d = false := dropWhile_head_false hD
      rw [List.reverse_cons] at ha hA
      rcases List.mem_append.mp ha with h1 | h1
      · rw [List.pairwise_append] at hA
        have had : R a d := hA.2.2 a h1 d (by simp)
        by_cases hsh : shift a = true
        · rw [hprop a d hsh had] at hd
          cases hd
        · exact Bool.eq_false_iff.mpr hsh
      · rw [List.mem_singleton] at h1
        rw [h1]
        exact hd
  rw [List.pairwise_append]
  refine ⟨hA, ?_, ?_⟩
  · rw [List.pairwise_cons]
    refine ⟨fun b hb => ?_, hB⟩
    rw [List.mem_reverse] at hb
    exact hkeyB b (List.mem_takeWhile_imp hb)
  · intro a ha b hb
    rcases List.mem_cons.mp hb with h1 | h1
    · rw [h1]
      exact hAkey a (hAnot a ha)
    · exact hAB a ha b h1

/-! #### The insertion-sort fold -/

theorem sortAux_perm (sb : String) (rev : Bool) : ∀ (l acc : List Task),
    (l.foldl (fun acc key => insertShifted (shouldShift sb rev · key) key acc) acc).Perm
      (acc ++ l) := by
  intro l
  induction l with
  | nil => intro acc; simp
  | cons x xs ih =>
    intro acc
    simp only [List.foldl_cons]
    refine (ih _).trans ?_
    have h2 : (insertShifted (shouldShift sb rev · x) x acc ++ xs).Perm
        ((x :: acc) ++ xs) :=
      (perm_insertShifted (shouldShift sb rev · x) x acc).append_right xs
    refine h2.trans ?_
    simpa using List.perm_middle.symm

theorem sortAux_filter (sb : String) (rev : Bool) (k : SortKey) : ∀ (l acc : List Task),
    (l.foldl (fun acc key => insertShifted (shouldShift sb rev · key) key acc) acc).filter
        (fun t => sortKey sb t == k)
      = (acc ++ l).filter (fun t => sortKey sb t == k) := by
  intro l
  induction l with
  | nil => intro acc; simp
  | cons x xs ih =>
    intro acc
    simp only [List.foldl_cons]
    rw [ih]
    have hstep : (insertShifted (shouldShift sb rev · x) x acc).filter
        (fun t => sortKey sb t == k) = (acc ++ [x]).filter (fun t => sortKey sb t == k) := by
      apply filter_insertShifted
      intro hkx b hb
      have hkx2 : sortKey sb x = k := by simpa using hkx
      have hb2 : shouldShift sb rev b x = true := hb
      show (sortKey sb b == k) = false
      by_cases hqb : sortKey sb b = k
      · rw [shouldShift_of_eq_key sb rev b x (hqb.trans hkx2.symm)] at hb2
        cases hb2
      · simp [hqb]
    rw [List.filter_append, hstep]
    rw [List.filter_append, List.filter_append, List.append_assoc]
    congr 1
    by_cases hx : (sortKey sb x == k) = true <;> simp [List.filter_cons, hx]

theorem sortAux_pairwise (sb : String) (rev : Bool) : ∀ (l acc : List Task),
    acc.Pairwise (fun a b => shouldShift sb rev a b = false) →
    (l.foldl (fun acc key => insertShifted (shouldShift sb rev · key) key acc) acc).Pairwise
      (fun a b => shouldShift sb rev a b = false) := by
  intro l
  induction l with
  | nil => intro acc h; exact h
  | cons x xs ih =>
    intro acc h
    simp only [List.foldl_cons]
    refine ih _ ?_
    refine pairwise_insertShifted _ _ x acc ?_ ?_ ?_ h
    · exact fun b hb => shouldShift_asymm sb rev b x hb
    · exact fun a d ha had => shouldShift_propagate sb rev a d x ha had
    · exact fun a ha => ha

theorem sort_tasks_perm (sb : String) (rev : Bool) (l : List Task) :
    (sort_tasks sb rev l).Perm l := by
  unfold sort_tasks
  cases l with
  | nil => simp
  | cons x xs =>
    rw [if_neg (by simp)]
    simpa using sortAux_perm sb rev (x :: xs) []

theorem sort_tasks_filter (sb : String) (rev : Bool) (l : List Task) (k : SortKey) :
    (sort_tasks sb rev l).filter (fun t => sortKey sb t == k)
      = l.filter (fun t => sortKey sb t == k) := by
  unfold sort_tasks
  cases l with
  | nil => simp
  | cons x xs =>
    rw [if_neg (by simp)]
    simpa using sortAux_filter sb rev k (x :: xs) []

theorem sort_tasks_pairwise (sb : String) (rev : Bool) (l : List Task) :
    (sort_tasks sb rev l).Pairwise (fun a b => shouldShift sb rev a b = false) := by
  unfold sort_tasks
  cases l with
  | nil => simp
  | cons x xs =>
    rw [if_neg (by simp)]
    exact sortAux_pairwise sb rev (x :: xs) [] (List.Pairwise.nil)

theorem sortKey_priority (t : Task) :
    sortKey "priority" t = SortKey.num (priority_order t.priority) := by
  unfold sortKey
  rw [if_pos rfl]

theorem sortKey_due_date (t : Task) : sortKey "due_date" t = SortKey.str t.due_date := by
  unfold sortKey
  rw [if_neg (by decide), if_neg (by decide)]

theorem sortKey_created_at (t : Task) :
    sortKey "created_at" t = SortKey.str t.created_at := by
  unfold sortKey
  rw [if_neg (by decide), if_pos rfl]

def taskA7 : Task :=
  ⟨"a", "A", "", "2024-01-10", "High", "Pending", "2024-01-01 00:00:00"⟩

def taskB7 : Task :=
  ⟨"b", "B", "", "2024-01-05", "Low", "Pending", "2024-01-01 00:00:01"⟩

def taskC7 : Task :=
  ⟨"c", "C", "", "2024-01-10", "Medium", "Pending", "2024-01-01 00:00:02"⟩

/-- Claim C7: sort_tasks is a stable sort in both directions. The output is
a permutation of the input; for every key value, the elements carrying that
key keep exactly their input relative order (stability, for every field and
both directions, so descending is a key-order flip and not a post-reverse);
ascending priority output is nondecreasing in the rank Low 1, Medium 2,
High 3 with unrecognized priorities at rank 0, descending nonincreasing;
due_date and created_at output is lexicographically nondecreasing
(ascending) or nonincreasing (descending) by string comparison; and on the
concrete tasks A (due 2024-01-10, High), B (due 2024-01-05, Low), C (due
2024-01-10, Medium) in that order, sorting by due_date ascending yields
[B, A, C]. -/
theorem C7_sort_stable :
    (∀ (sb : String) (rev : Bool) (l : List Task), (sort_tasks sb rev l).Perm l) ∧
    (∀ (sb : String) (rev : Bool) (l : List Task) (k : SortKey),
      (sort_tasks sb rev l).filter (fun t => sortKey sb t == k)
        = l.filter (fun t => sortKey sb t == k)) ∧
    (∀ l : List Task, (sort_tasks "priority" false l).Pairwise
      (fun a b => priority_order a.priority ≤ priority_order b.priority)) ∧
    (∀ l : List Task, (sort_tasks "priority" true l).Pairwise
      (fun a b => priority_order b.priority ≤ priority_order a.priority)) ∧
    (∀ l : List Task, (sort_tasks "due_date" false l).Pairwise
      (fun a b => strLt b.due_date a.due_date = false)) ∧
    (∀ l : List Task, (sort_tasks "due_date" true l).Pairwise
      (fun a b => strLt a.due_date b.due_date = false)) ∧
    (∀ l : List Task, (sort_tasks "created_at" false l).Pairwise
      (fun a b => strLt b.created_at a.created_at = false)) ∧
    (∀ l : List Task, (sort_tasks "created_at" true l).Pairwise
      (fun a b => strLt a.created_at b.created_at = false)) ∧
    priority_order "Low" = 1 ∧ priority_order "Medium" = 2 ∧
    priority_order "High" = 3 ∧ priority_order "Urgent" = 0 ∧
    sort_tasks "due_date" false [taskA7, taskB7, taskC7] = [taskB7, taskA7, taskC7] := by
  refine ⟨sort_tasks_perm, sort_tasks_filter, ?_, ?_, ?_, ?_, ?_, ?_, by decide, by decide,
    by decide, by decide, by decide⟩
  · intro l
    refine (sort_tasks_pairwise "priority" false l).imp ?_
    intro a b h
    simp only [shouldShift, sortKey_priority, Bool.not_false, Bool.true_and, Bool.false_and,
      Bool.or_false, keyGt, decide_eq_false_iff_not] at h
    omega
  · intro l
    refine (sort_tasks_pairwise "priority" true l).imp ?_
    intro a b h
    simp only [shouldShift, sortKey_priority, Bool.not_true, Bool.true_and, Bool.false_and,
      Bool.false_or, keyGt, decide_eq_false_iff_not] at h
    omega
  · intro l
    refine (sort_tasks_pairwise "due_date" false l).imp ?_
    intro a b h
    simpa only [shouldShift, sortKey_due_date, Bool.not_false, Bool.true_and, Bool.false_and,
      Bool.or_false, keyGt] using h
  · intro l
    refine (sort_tasks_pairwise "due_date" true l).imp ?_
    intro a b h
    simpa only [shouldShift, sortKey_due_date, Bool.not_true, Bool.true_and, Bool.false_and,
      Bool.false_or, keyGt] using h
  · intro l
    refine (sort_tasks_pairwise "created_at" false l).imp ?_
    intro a b h
    simpa only [shouldShift, sortKey_created_at, Bool.not_false, Bool.true_and,
      Bool.false_and, Bool.or_false, keyGt] using h
  · intro l
    refine (sort_tasks_pairwise "created_at" true l).imp ?_
    intro a b h
    simpa only [shouldShift, sortKey_created_at, Bool.not_true, Bool.true_and,
      Bool.false_and, Bool.false_or, keyGt] using h

/-! ### Claim C9 (sort_tasks is non-destructive)

To express that the input list object survives the call unchanged, the
Python heap of list objects is made explicit: a Store holds the list
objects and a list variable is an index into it. sort_tasks reads the cell
of its argument once to copy it (tasks.copy(), line 257), allocates the
copy as a new object, and every element assignment of the loops
(sorted_tasks[j+1] = ..., sorted_tasks[j+1] = key_task) writes the new
cell only; the returned object is the new cell. -/

structure Store where
  lists : List (List Task)
deriving Repr

def Store.read (s : Store) (r : Nat) : List Task := s.lists.getD r []

def Store.write (s : Store) (r : Nat) (v : List Task) : Store := ⟨s.lists.set r v⟩

def Store.alloc (s : Store) (v : List Task) : Store × Nat :=
  (⟨s.lists ++ [v]⟩, s.lists.length)

/-- Element assignment target[idx] = x on the list object named r. -/
def Store.setElem (s : Store) (r idx : Nat) (x : Task) : Store :=
  s.write r ((s.read r).set idx x)

/-- The inner while loop of sort_tasks (lines 276-289) acting on the buffer
cell r. The Nat argument is j + 1 for the Python loop variable j, so 0 is
the exit at j = -1; each iteration inspects sorted_tasks[j], shifts it to
position j + 1 when the comparison holds, and the result is the insertion
position j + 1 at exit. -/
def whileShift (sb : String) (rev : Bool) (key : Task) (r : Nat) :
    Store → Nat → Store × Nat
  | st, 0 => (st, 0)
  | st, j + 1 =>
    let a := (st.read r).getD j default
    if shouldShift sb rev a key then whileShift sb rev key r (st.setElem r (j + 1) a) j
    else (st, j + 1)

/-- The outer for loop of sort_tasks (lines 263-291): i counts up from 1,
rem is the number of remaining iterations; each iteration reads the key at
position i, runs the inner loop, and writes the key at the insertion
position. -/
def outerLoop (sb : String) (rev : Bool) (r : Nat) : Store → Nat → Nat → Store
  | st, _, 0 => st
  | st, i, rem + 1 =>
    let key := (st.read r).getD i default
    let p := whileShift sb rev key r st i
    outerLoop sb rev r (p.1.setElem r p.2 key) (i + 1) rem

/-- TaskManager.sort_tasks on the explicit store: the result is the store
after the call together with the object returned (a fresh empty list for
empty input, line 254, otherwise the sorted copy). -/
def sort_tasks_st (sb : String) (rev : Bool) (st : Store) (r : Nat) : Store × Nat :=
  let tasks := st.read r
  if tasks.isEmpty then st.alloc []
  else
    let p := st.alloc tasks
    (outerLoop sb rev p.2 p.1 1 (tasks.length - 1), p.2)

theorem read_write_ne (s : Store) (r r2 : Nat) (v : List Task) (h : r ≠ r2) :
    (s.write r2 v).read r = s.read r := by
  simp only [Store.read, Store.write, List.getD, List.get?_eq_getElem?]
  rw [List.getElem?_set_ne (Ne.symm h)]

theorem read_alloc_lt (s : Store) (v : List Task) (r : Nat) (h : r < s.lists.length) :
    (s.alloc v).1.read r = s.read r := by
  simp only [Store.read, Store.alloc, List.getD, List.get?_eq_getElem?]
  rw [List.getElem?_append_left h]

theorem alloc_ref_ne (s : Store) (v : List Task) (r : Nat) (h : r < s.lists.length) :
    (s.alloc v).2 ≠ r := by
  simp only [Store.alloc]
  omega

theorem whileShift_frame (sb : String) (rev : Bool) (key : Task) (r : Nat) :
    ∀ (n : Nat) (st : Store) (r' : Nat), r' ≠ r →
      (whileShift sb rev key r st n).1.read r' = st.read r' := by
  intro n
  induction n with
  | zero => intro st r' h; rfl
  | succ j ih =>
    intro st r' h
    simp only [whileShift]
    split
    · rw [ih _ r' h]
      exact read_write_ne _ _ _ _ h
    · rfl

theorem outerLoop_frame (sb : String) (rev : Bool) (r : Nat) :
    ∀ (rem : Nat) (st : Store) (i r' : Nat), r' ≠ r →
      (outerLoop sb rev r st i rem).read r' = st.read r' := by
  intro rem
  induction rem with
  | zero => intro st i r' h; rfl
  | succ n ih =>
    intro st i r' h
    simp only [outerLoop, Store.setElem]
    rw [ih _ _ r' h, read_write_ne _ _ _ _ h, whileShift_frame sb rev _ r i st r' h]

/-- Claim C9: sort_tasks is non-destructive: for every store and every list
object in it, the call returns a distinct (freshly allocated) object and
the content of the input object after the call is exactly its content
before the call, for every field and direction. -/
theorem C9_sort_nondestructive (sb : String) (rev : Bool) (st : Store) (r : Nat)
    (h : r < st.lists.length) :
    (sort_tasks_st sb rev st r).1.read r = st.read r ∧
    (sort_tasks_st sb rev st r).2 ≠ r := by
  simp only [sort_tasks_st]
  split
  · exact ⟨read_alloc_lt st [] r h, alloc_ref_ne st [] r h⟩
  · refine ⟨?_, alloc_ref_ne st (st.read r) r h⟩
    rw [outerLoop_frame sb rev (st.alloc (st.read r)).2 _ _ _ r
      (Ne.symm (alloc_ref_ne st (st.read r) r h))]
    exact read_alloc_lt st (st.read r) r h

def storeW : Store := ⟨[[taskA7, taskB7, taskC7]]⟩

theorem C9_sort_nondestructive_witness :
    ((sort_tasks_st "due_date" false storeW 0).1.read 0 = storeW.read 0 ∧
      (sort_tasks_st "due_date" false storeW 0).2 ≠ 0) ∧
    storeW.read 0 = [taskA7, taskB7, taskC7] ∧
    (sort_tasks_st "due_date" false storeW 0).1.read
      (sort_tasks_st "due_date" false storeW 0).2 = [taskB7, taskA7, taskC7] :=
  ⟨C9_sort_nondestructive "due_date" false storeW 0 (by decide), by decide, by decide⟩

/-! #### Agreement of the store insertion sort with the functional one

The loops of sort_tasks_st touch a single cell; pureInner and pureOuter
are their contents-level readings. The lemmas below show that the store
loops compute them, that one insertion pass equals insertShifted, and that
the object returned by the store-level call holds exactly
sort_tasks of the input contents — so the two renderings of the source
algorithm agree on every input. -/

def pureInner (sb : String) (rev : Bool) (key : Task) : List Task → Nat → List Task × Nat
  | l, 0 => (l, 0)
  | l, j + 1 =>
    let a := l.getD j default
    if shouldShift sb rev a key then pureInner sb rev key (l.set (j + 1) a) j
    else (l, j + 1)

def pureOuter (sb : String) (rev : Bool) : List Task → Nat → Nat → List Task
  | l, _, 0 => l
  | l, i, rem + 1 =>
    let key := l.getD i default
    let p := pureInner sb rev key l i
    pureOuter sb rev (p.1.set p.2 key) (i + 1) rem

theorem read_write_self (s : Store) (r : Nat) (v : List Task) (h : r < s.lists.length) :
    (s.write r v).read r = v := by
  simp [Store.read, Store.write, List.getD, List.get?_eq_getElem?, List.getElem?_set_self, h]

theorem write_read_self (s : Store) (r : Nat) (h : r < s.lists.length) :
    s.write r (s.read r) = s := by
  simp only [Store.write, Store.read]
  congr 1
  rw [List.getD_eq_getElem _ _ h, List.set_eq_take_cons_drop _ h,
    ← List.drop_eq_getElem_cons h, List.take_append_drop]

theorem write_write (s : Store) (r : Nat) (v w : List Task) :
    (s.write r v).write r w = s.write r w := by
  simp only [Store.write]
  congr 1
  exact List.set_set v w s.lists r

theorem read_alloc_self (s : Store) (v : List Task) :
    (s.alloc v).1.read (s.alloc v).2 = v := by
  simp [Store.alloc, Store.read, List.getD, List.get?_eq_getElem?,
    List.getElem?_concat_length]

theorem whileShift_eq_pure (sb : String) (rev : Bool) (key : Task) (r : Nat) :
    ∀ (n : Nat) (st : Store), r < st.lists.length →
      whileShift sb rev key r st n
        = (st.write r (pureInner sb rev key (st.read r) n).1,
           (pureInner sb rev key (st.read r) n).2) := by
  intro n
  induction n with
  | zero =>
    intro st h
    simp only [whileShift, pureInner]
    rw [write_read_self st r h]
  | succ j ih =>
    intro st h
    simp only [whileShift, pureInner]
    by_cases hs : shouldShift sb rev ((st.read r).getD j default) key = true
    · rw [if_pos hs, if_pos hs]
      have hlen : r < (st.setElem r (j + 1) ((st.read r).getD j default)).lists.length := by
        simpa [Store.setElem, Store.write] using h
      rw [ih _ hlen]
      have hread : (st.setElem r (j + 1) ((st.read r).getD j default)).read r
          = (st.read r).set (j + 1) ((st.read r).getD j default) :=
        read_write_self st r _ h
      rw [hread]
      simp only [Store.setElem]
      rw [write_write]
    · rw [if_neg hs, if_neg hs]
      rw [write_read_self st r h]

theorem insertShifted_snoc_shift (shift : Task → Bool) (key a : Task) (pre : List Task)
    (ha : shift a = true) :
    insertShifted shift key (pre ++ [a]) = insertShifted shift key pre ++ [a] := by
  unfold insertShifted
  simp [List.takeWhile_cons, List.dropWhile_cons, ha]

theorem insertShifted_snoc_noshift (shift : Task → Bool) (key a : Task) (pre : List Task)
    (ha : shift a = false) :
    insertShifted shift key (pre ++ [a]) = (pre ++ [a]) ++ [key] := by
  unfold insertShifted
  simp [List.takeWhile_cons, List.dropWhile_cons, ha]

theorem pureInner_insert (sb : String) (rev : Bool) (key : Task) :
    ∀ (i : Nat) (l : List Task), i < l.length →
      (pureInner sb rev key l i).1.set (pureInner sb rev key l i).2 key
        = insertShifted (shouldShift sb rev · key) key (l.take i) ++ l.drop (i + 1) := by
  intro i
  induction i with
  | zero =>
    intro l h
    cases l with
    | nil => simp at h
    | cons x xs => simp [pureInner, insertShifted]
  | succ j ih =>
    intro l h
    have hj : j < l.length := by omega
    have hj1 : j + 1 < l.length := h
    have hgetD : l.getD j default = l[j] := List.getD_eq_getElem l default hj
    have htakesucc : l.take (j + 1) = l.take j ++ [l[j]] := by
      rw [List.take_succ, List.getElem?_eq_getElem hj]
      rfl
    simp only [pureInner]
    by_cases hs : shouldShift sb rev (l.getD j default) key = true
    · rw [if_pos hs]
      have hlen : j < (l.set (j + 1) (l.getD j default)).length := by simpa using hj
      rw [ih _ hlen]
      have hset : l.set (j + 1) (l.getD j default)
          = l.take (j + 1) ++ (l.getD j default) :: l.drop (j + 2) :=
        List.set_eq_take_cons_drop _ hj1
      have hlentake : (l.take (j + 1)).length = j + 1 := by
        rw [List.length_take]
        omega
      have htake : (l.set (j + 1) (l.getD j default)).take j = l.take j := by
        rw [hset, List.take_append_of_le_length (by omega), List.take_take]
        congr 1
        omega
      have hdrop : (l.set (j + 1) (l.getD j default)).drop (j + 1)
          = (l.getD j default) :: l.drop (j + 2) := by
        rw [hset, List.drop_left' hlentake]
      rw [htake, hdrop, htakesucc,
        insertShifted_snoc_shift _ key l[j] (l.take j) (by rwa [hgetD] at hs), hgetD]
      simp
    · rw [if_neg hs]
      have hsf : shouldShift sb rev l[j] key = false := by
        rw [← hgetD]
        exact Bool.eq_false_iff.mpr hs
      rw [List.set_eq_take_cons_drop _ hj1, htakesucc,
        insertShifted_snoc_noshift _ key l[j] (l.take j) hsf]
      simp

theorem outerLoop_eq_pure (sb : String) (rev : Bool) (r : Nat) :
    ∀ (rem : Nat) (st : Store) (i : Nat), r < st.lists.length →
      outerLoop sb rev r st i rem = st.write r (pureOuter sb rev (st.read r) i rem) := by
  intro rem
  induction rem with
  | zero =>
    intro st i h
    simp only [outerLoop, pureOuter]
    rw [write_read_self st r h]
  | succ n ih =>
    intro st i h
    simp only [outerLoop, pureOuter]
    rw [whileShift_eq_pure sb rev _ r i st h]
    simp only [Store.setElem]
    rw [read_write_self st r _ h, write_write]
    have hlen : r < (st.write r
        ((pureInner sb rev ((st.read r).getD i default) (st.read r) i).1.set
          (pureInner sb rev ((st.read r).getD i default) (st.read r) i).2
          ((st.read r).getD i default))).lists.length := by
      simpa [Store.write] using h
    rw [ih _ (i + 1) hlen, read_write_self st r _ h, write_write]

theorem insertShifted_length (shift : Task → Bool) (key : Task) (pre : List Task) :
    (insertShifted shift key pre).length = pre.length + 1 :=
  ((perm_insertShifted shift key pre).length_eq).trans (by simp)

theorem pureOuter_spec (sb : String) (rev : Bool) :
    ∀ (rem : Nat) (l : List Task) (i : Nat), i + rem ≤ l.length →
      pureOuter sb rev l i rem
        = ((l.drop i).take rem).foldl
            (fun acc key => insertShifted (shouldShift sb rev · key) key acc) (l.take i)
          ++ l.drop (i + rem) := by
  intro rem
  induction rem with
  | zero =>
    intro l i h
    simp [pureOuter, List.take_append_drop]
  | succ n ih =>
    intro l i h
    have hi : i < l.length := by omega
    simp only [pureOuter]
    rw [pureInner_insert sb rev _ i l hi]
    have hbl : (insertShifted (shouldShift sb rev · (l.getD i default)) (l.getD i default)
        (l.take i)).length = i + 1 := by
      rw [insertShifted_length, List.length_take]
      omega
    have hlen1 : (insertShifted (shouldShift sb rev · (l.getD i default)) (l.getD i default)
        (l.take i) ++ l.drop (i + 1)).length = l.length := by
      rw [List.length_append, hbl, List.length_drop]
      omega
    rw [ih _ (i + 1) (by omega)]
    have hblock : (insertShifted (shouldShift sb rev · (l.getD i default)) (l.getD i default)
        (l.take i) ++ l.drop (i + 1)).take (i + 1)
        = insertShifted (shouldShift sb rev · (l.getD i default)) (l.getD i default)
          (l.take i) :=
      List.take_left' hbl
    have hdrop1 : (insertShifted (shouldShift sb rev · (l.getD i default)) (l.getD i default)
        (l.take i) ++ l.drop (i + 1)).drop (i + 1) = l.drop (i + 1) :=
      List.drop_left' hbl
    have hdd : ∀ (m : List Task) (c : Nat), m.drop (i + 1 + c) = (m.drop (i + 1)).drop c := by
      intro m c
      rw [List.drop_drop]
    rw [hblock]
    rw [hdd _ n, hdrop1, ← hdd l n]
    have hdropi : l.drop i = l[i] :: l.drop (i + 1) := List.drop_eq_getElem_cons hi
    have hgetD : l.getD i default = l[i] := List.getD_eq_getElem l default hi
    rw [hdropi, hgetD]
    simp only [List.take_succ_cons, List.foldl_cons]
    congr 2
    omega

/-- The object returned by the store-level sort holds exactly the
functional sort of the input contents: the two renderings of
TaskManager.sort_tasks agree on every store, every cell, every field and
both directions. -/
theorem sort_tasks_st_agrees (sb : String) (rev : Bool) (st : Store) (r : Nat) :
    (sort_tasks_st sb rev st r).1.read (sort_tasks_st sb rev st r).2
      = sort_tasks sb rev (st.read r) := by
  simp only [sort_tasks_st]
  split
  · rename_i he
    rw [read_alloc_self]
    unfold sort_tasks
    rw [if_pos he]
  · rename_i he
    have hr2 : (st.alloc (st.read r)).2 < (st.alloc (st.read r)).1.lists.length := by
      simp [Store.alloc]
    rw [outerLoop_eq_pure sb rev _ _ _ _ hr2, read_write_self _ _ _ hr2, read_alloc_self]
    cases hl : st.read r with
    | nil => rw [hl] at he; simp at he
    | cons x xs =>
      have hlen : (x :: xs).length - 1 = xs.length := by
        rw [List.length_cons, Nat.add_sub_cancel]
      rw [hlen]
      rw [pureOuter_spec sb rev xs.length (x :: xs) 1
        (by rw [List.length_cons, Nat.add_comm])]
      unfold sort_tasks
      rw [if_neg (by simp)]
      simp only [List.drop_succ_cons, List.drop_zero, List.take_succ_cons, List.take_zero,
        List.take_length, List.foldl_cons]
      rw [show (1 : Nat) + xs.length = (x :: xs).length from by
        rw [List.length_cons, Nat.add_comm]]
      rw [List.drop_length]
      simp [insertShifted]

end TaskApp
